import Mathlib

/-! # gorestlib: a shallow embedding of `restclient.go` and `restliberror/errors.go`

The development models the REST client of `druvainc/gorestlib`:

* Go strings and byte slices are byte sequences (`Bytes`); `string(body)` is the identity.
* Values of Go's `error` interface are the inductive `GoError` (with `nil`).
* The behaviour of the Go standard library that the client delegates to and that cannot be
  computed from the repository (URL parsing, JSON encoding and decoding, the HTTP round trip)
  is supplied as parameters (`Lib`, `RestClient.client`).
* The small, deterministic standard-library helpers on which the claims depend
  (`url.Values`, `url.QueryEscape`, `http.Header.Set`, `textproto.CanonicalMIMEHeaderKey`)
  are modelled concretely.
* Effects (the call of `client.Do`, reading and closing the response body) are recorded in a
  trace; the caller-owned response target is passed in and returned explicitly.
-/

namespace GoRestLib

/-! ## Strings and errors -/

/-- Go `string` and `[]byte`: a sequence of bytes. -/
abbrev Bytes := List UInt8

/-- Byte sequence of an ASCII literal. -/
def ascii (s : String) : Bytes := s.toList.map (fun c => c.toNat.toUInt8)

/-- Values of Go's `error` interface.
`errorString` is what `errors.New` returns, `RestLibError` is the struct of
`restliberror/errors.go` (fields `Err`, `Code`) stored in the interface, and `foreign` stands
for every error value produced inside the standard library (URL, JSON, network errors),
identified by a tag and its message. -/
inductive GoError where
  | nil : GoError
  | errorString (s : Bytes) : GoError
  | foreign (tag : Nat) (text : Bytes) : GoError
  | RestLibError (Err : GoError) (Code : Int) : GoError
  deriving DecidableEq, Repr

/-- `errors.New(text)`. -/
def errorsNew (text : Bytes) : GoError := GoError.errorString text

/-- Dynamic dispatch of the method `Error()` on an `error` value; `none` is the nil-interface
panic. The `RestLibError` case is the method of `restliberror/errors.go`. -/
def GoError.Error : GoError → Option Bytes
  | GoError.nil => none
  | GoError.errorString s => some s
  | GoError.foreign _ text => some text
  | GoError.RestLibError Err _ =>
      match Err with
      | GoError.nil => some []
      | e => e.Error

/-- The struct `restliberror.RestLibError`. -/
structure RestLibError where
  Err : GoError
  Code : Int
  deriving DecidableEq, Repr

/-- A `RestLibError` value stored in an `error` interface. -/
def RestLibError.toError (re : RestLibError) : GoError := GoError.RestLibError re.Err re.Code

/-- `func (re RestLibError) Error() string`. -/
def RestLibError.Error (re : RestLibError) : Option Bytes :=
  if re.Err = GoError.nil then
    some []
  else
    re.Err.Error

/-! ## HTTP data -/

/-- The struct `url.URL` as produced by `url.Parse`; the client reads and writes `RawQuery`
only. -/
structure URL where
  Scheme : Bytes
  Host : Bytes
  Path : Bytes
  RawQuery : Bytes
  Fragment : Bytes
  deriving DecidableEq, Repr

/-- Go maps from string to string slices (`url.Values`, `http.Header`), as association lists
with one entry per key. -/
abbrev MultiMap := List (Bytes × List Bytes)

/-- Map lookup `m[key]`; a missing key gives the nil slice. -/
def MultiMap.get (m : MultiMap) (key : Bytes) : List Bytes :=
  match m with
  | [] => []
  | (k, vs) :: rest => if k = key then vs else MultiMap.get rest key

/-- Whether `key` is present in the map. -/
def MultiMap.has (m : MultiMap) (key : Bytes) : Bool :=
  match m with
  | [] => false
  | (k, _) :: rest => if k = key then true else MultiMap.has rest key

/-- Map assignment `m[key] = vs`. -/
def MultiMap.set (m : MultiMap) (key : Bytes) (vs : List Bytes) : MultiMap :=
  match m with
  | [] => [(key, vs)]
  | (k, old) :: rest => if k = key then (k, vs) :: rest else (k, old) :: MultiMap.set rest key vs

/-- The struct `http.Request`, restricted to the fields the client sets. `Body` is `none` for
a nil body and otherwise the bytes the reader yields. -/
structure Request where
  Method : Bytes
  URL : URL
  Header : MultiMap
  Body : Option Bytes
  Close : Bool
  deriving DecidableEq, Repr

/-- The response body as seen through `ioutil.ReadAll`: the bytes read and the read error
(`nil` when the whole body was read). -/
structure Body where
  data : Bytes
  readErr : GoError
  deriving DecidableEq, Repr

/-- The struct `http.Response`, restricted to the fields the client reads. -/
structure Response where
  Status : Bytes
  StatusCode : Int
  Body : Body
  deriving DecidableEq, Repr

/-- `http.StatusOK`. -/
def StatusOK : Int := 200
/-- `http.StatusTooManyRequests`. -/
def StatusTooManyRequests : Int := 429
/-- `http.StatusForbidden`. -/
def StatusForbidden : Int := 403

/-- Standard-library behaviour supplied from outside: `url.Parse` as called by
`http.NewRequest`, `json.Marshal` on a body of type `B`, and `json.Unmarshal` into a target of
type `T` (it returns the target after the call together with its error). -/
structure Lib (B T : Type) where
  urlParse : Bytes → Except GoError URL
  jsonMarshal : B → Except GoError Bytes
  jsonUnmarshal : Bytes → T → T × GoError

/-- The struct `RestClient`; `client` is the behaviour of `r.client.Do`. -/
structure RestClient where
  apiRootURL : Bytes
  client : Request → Except GoError Response

/-- Observable effects of a call, in order: `r.client.Do(req)`, `ioutil.ReadAll(resp.Body)`,
`json.Unmarshal(data, responseObj)` and `resp.Body.Close()`. -/
inductive Event where
  | Do (req : Request) : Event
  | ReadAll : Event
  | Unmarshal (data : Bytes) : Event
  | BodyClose : Event
  deriving DecidableEq, Repr

/-- Result of a client call: the effects performed, the response target after the call and
the returned `error`. -/
structure Outcome (T : Type) where
  trace : List Event
  target : T
  err : GoError

/-! ## `net/url`: query values -/

/-- Go map `map[string]string` handed in by the caller: `none` is the nil map, `some es` a map
whose entries `es` are listed in the order in which `range` visits them. -/
abbrev StringMap := Option (List (Bytes × Bytes))

/-- The entries a `range` loop visits (none for the nil map). -/
def StringMap.entries (m : StringMap) : List (Bytes × Bytes) :=
  match m with
  | none => []
  | some es => es

/-- Byte-wise lexicographic `a <= b` on Go strings, the order of `sort.Strings`. -/
def bytesLE : Bytes → Bytes → Bool
  | [], _ => true
  | _ :: _, [] => false
  | a :: as, b :: bs => if a < b then true else if b < a then false else bytesLE as bs

/-- `url.shouldEscape(c, encodeQueryComponent)`: everything but ASCII letters, digits and
`-`, `_`, `.`, `~` is escaped. -/
def shouldEscape (c : UInt8) : Bool :=
  if (97 ≤ c ∧ c ≤ 122) ∨ (65 ≤ c ∧ c ≤ 90) ∨ (48 ≤ c ∧ c ≤ 57) then false
  else if c = 45 ∨ c = 95 ∨ c = 46 ∨ c = 126 then false
  else true

/-- The table `upperhex = "0123456789ABCDEF"` indexed by a nibble. -/
def upperhex (n : UInt8) : UInt8 := (ascii "0123456789ABCDEF").getD n.toNat 0

/-- `url.QueryEscape`: a space becomes `+`, a byte to escape becomes `%XX`. -/
def QueryEscape (s : Bytes) : Bytes :=
  s.flatMap (fun c =>
    if c = 32 then [43]
    else if shouldEscape c then [37, upperhex (c >>> 4), upperhex (c &&& 15)]
    else [c])

/-- `url.ishex`. -/
def ishex (c : UInt8) : Bool :=
  (48 ≤ c ∧ c ≤ 57) ∨ (97 ≤ c ∧ c ≤ 102) ∨ (65 ≤ c ∧ c ≤ 70)

/-- `url.unhex`. -/
def unhex (c : UInt8) : UInt8 :=
  if 48 ≤ c ∧ c ≤ 57 then c - 48
  else if 97 ≤ c ∧ c ≤ 102 then c - 97 + 10
  else if 65 ≤ c ∧ c ≤ 70 then c - 65 + 10
  else 0

/-- `url.QueryUnescape`; `none` is the `EscapeError` of a malformed `%` sequence. -/
def QueryUnescape : Bytes → Option Bytes
  | [] => some []
  | c :: rest =>
      if c = 37 then
        match rest with
        | a :: b :: rest2 =>
            if ishex a ∧ ishex b then
              (QueryUnescape rest2).map (fun t => ((unhex a <<< 4) ||| unhex b) :: t)
            else none
        | _ => none
      else if c = 43 then (QueryUnescape rest).map (fun t => 32 :: t)
      else (QueryUnescape rest).map (fun t => c :: t)

/-- `strings.Cut(s, sep)` for a one-byte separator: the text before the first `sep`, the text
after it, and whether `sep` was found. -/
def cut (sep : UInt8) : Bytes → Bytes × Bytes × Bool
  | [] => ([], [], false)
  | c :: rest =>
      if c = sep then ([], rest, true)
      else
        let r := cut sep rest
        (c :: r.1, r.2.1, r.2.2)

/-- `func (v Values) Add(key, value string)`: `v[key] = append(v[key], value)`. -/
def Values.Add (v : MultiMap) (key value : Bytes) : MultiMap :=
  v.set key (v.get key ++ [value])

/-- The loop of `url.parseQuery`, one iteration per unit of fuel: cut the next `&`-separated
item, skip it when it holds a `;`, is empty or does not unescape, and append the pair
otherwise. -/
def parseQueryLoop : Nat → MultiMap → Bytes → MultiMap
  | 0, m, _ => m
  | fuel + 1, m, query =>
      if query = [] then m
      else
        let c := cut 38 query
        let key := c.1
        let query1 := c.2.1
        if key.contains 59 then parseQueryLoop fuel m query1
        else if key = [] then parseQueryLoop fuel m query1
        else
          let kv := cut 61 key
          match QueryUnescape kv.1 with
          | none => parseQueryLoop fuel m query1
          | some key1 =>
              match QueryUnescape kv.2.1 with
              | none => parseQueryLoop fuel m query1
              | some value1 => parseQueryLoop fuel (Values.Add m key1 value1) query1

/-- `url.ParseQuery` with its error dropped, which is how `URL.Query` uses it. Every
iteration consumes at least one byte, so the length of the query is enough fuel. -/
def ParseQuery (query : Bytes) : MultiMap := parseQueryLoop query.length [] query

/-- `func (u *URL) Query() Values`. -/
def URL.Query (u : URL) : MultiMap := ParseQuery u.RawQuery

/-- One write of `Values.Encode` into its buffer: a `&` unless the buffer is empty, then
`key=value`, both escaped. -/
def encodeWrite (keyEscaped : Bytes) (buf : Bytes) (value : Bytes) : Bytes :=
  (if buf.length > 0 then buf ++ [38] else buf) ++ keyEscaped ++ [61] ++ QueryEscape value

/-- `func (v Values) Encode() string`: the keys sorted, and for every key its values in
order. -/
def Values.Encode (v : MultiMap) : Bytes :=
  if v.length = 0 then []
  else
    let keys := List.insertionSort (fun a b => bytesLE a b = true) (v.map Prod.fst)
    keys.foldl (fun buf k => (v.get k).foldl (encodeWrite (QueryEscape k)) buf) []

/-! ## `net/http`: headers and requests -/

/-- `textproto.validHeaderFieldByte`: the token bytes of RFC 7230. -/
def validHeaderFieldByte (c : UInt8) : Bool :=
  (48 ≤ c ∧ c ≤ 57) ∨ (97 ≤ c ∧ c ≤ 122) ∨ (65 ≤ c ∧ c ≤ 90) ∨
  c = 33 ∨ c = 35 ∨ c = 36 ∨ c = 37 ∨ c = 38 ∨ c = 39 ∨ c = 42 ∨ c = 43 ∨ c = 45 ∨
  c = 46 ∨ c = 94 ∨ c = 95 ∨ c = 96 ∨ c = 124 ∨ c = 126

/-- The first loop of `textproto.canonicalMIMEHeaderKey`: `none` when a byte is neither a
token byte nor a space, otherwise whether a space was seen (`noCanon`). -/
def keyScan (noCanon : Bool) : Bytes → Option Bool
  | [] => some noCanon
  | c :: rest =>
      if validHeaderFieldByte c then keyScan noCanon rest
      else if c = 32 then keyScan true rest
      else none

/-- The second loop of `textproto.canonicalMIMEHeaderKey`: upper case at the start and after
each `-`, lower case elsewhere. -/
def canonLoop (upper : Bool) : Bytes → Bytes
  | [] => []
  | c :: rest =>
      let c1 :=
        if upper ∧ 97 ≤ c ∧ c ≤ 122 then c - 32
        else if ¬ upper ∧ 65 ≤ c ∧ c ≤ 90 then c + 32
        else c
      c1 :: canonLoop (c1 = 45) rest

/-- `textproto.canonicalMIMEHeaderKey`: a key that does not look like a header key is
returned unchanged. -/
def canonicalMIMEHeaderKey (a : Bytes) : Bytes :=
  match keyScan false a with
  | none => a
  | some true => a
  | some false => canonLoop true a

/-- The quick check of `textproto.CanonicalMIMEHeaderKey` over the remaining bytes of `s`. -/
def canonicalQuick (s : Bytes) (upper : Bool) : Bytes → Bytes
  | [] => s
  | c :: rest =>
      if ¬ validHeaderFieldByte c then s
      else if upper ∧ 97 ≤ c ∧ c ≤ 122 then canonicalMIMEHeaderKey s
      else if ¬ upper ∧ 65 ≤ c ∧ c ≤ 90 then canonicalMIMEHeaderKey s
      else canonicalQuick s (c = 45) rest

/-- `textproto.CanonicalMIMEHeaderKey`. -/
def CanonicalMIMEHeaderKey (s : Bytes) : Bytes := canonicalQuick s true s

/-- `func (h Header) Set(key, value string)`:
`h[CanonicalMIMEHeaderKey(key)] = []string{value}`. -/
def Header.Set (h : MultiMap) (key value : Bytes) : MultiMap :=
  h.set (CanonicalMIMEHeaderKey key) [value]

/-- `http.NewRequest(method, url, body)` for the valid methods the client passes: it fails
exactly when `url.Parse` fails, and otherwise yields a request with an empty header. -/
def NewRequest {B T : Type} (lib : Lib B T) (method url : Bytes) (body : Option Bytes) :
    Except GoError Request :=
  match lib.urlParse url with
  | Except.error err => Except.error err
  | Except.ok u =>
      Except.ok { Method := method, URL := u, Header := [], Body := body, Close := false }

/-- `func SetHeaders(req *http.Request, headers map[string]string)`. -/
def SetHeaders (req : Request) (headers : StringMap) : Request :=
  headers.entries.foldl
    (fun rq kv => { rq with Header := Header.Set rq.Header kv.1 kv.2 }) req

/-! ## `ProcessResponse`, `Get`, `Post` -/

/-- The statements of `ProcessResponse` between `defer resp.Body.Close()` and the return:
`ioutil.ReadAll`, the status classification and the decoding. -/
def processBody {B T : Type} (lib : Lib B T) (resp : Response) (responseObj : T) : Outcome T :=
  let body := resp.Body.data
  let err := resp.Body.readErr
  if err ≠ GoError.nil then
    { trace := [Event.ReadAll], target := responseObj, err := err }
  else if resp.StatusCode ≠ StatusOK then
    if resp.StatusCode = StatusTooManyRequests ∨ resp.StatusCode = StatusForbidden then
      let restLibError : RestLibError := { Err := errorsNew resp.Status, Code := resp.StatusCode }
      { trace := [Event.ReadAll], target := responseObj, err := restLibError.toError }
    else
      { trace := [Event.ReadAll], target := responseObj, err := errorsNew body }
  else if body.length = 0 then
    { trace := [Event.ReadAll], target := responseObj, err := GoError.nil }
  else
    let r := lib.jsonUnmarshal body responseObj
    if r.2 ≠ GoError.nil then
      { trace := [Event.ReadAll, Event.Unmarshal body], target := r.1, err := r.2 }
    else
      { trace := [Event.ReadAll, Event.Unmarshal body], target := r.1, err := GoError.nil }

/-- `func (r *RestClient) ProcessResponse(req, resp, responseObj) error`. The parameter
`resp` is overwritten before it is read and is left out. The deferred `resp.Body.Close()`
runs after the rest of the function on every path that registered it. -/
def ProcessResponse {B T : Type} (lib : Lib B T) (r : RestClient) (req : Request)
    (responseObj : T) : Outcome T :=
  let req1 : Request := { req with Close := true }
  match r.client req1 with
  | Except.error err => { trace := [Event.Do req1], target := responseObj, err := err }
  | Except.ok resp =>
      let res := processBody lib resp responseObj
      { trace := Event.Do req1 :: res.trace ++ [Event.BodyClose], target := res.target,
        err := res.err }

/-- `func (r *RestClient) Get(resource, responseObj, queryParam, headers) error`. -/
def Get {B T : Type} (lib : Lib B T) (r : RestClient) (resource : Bytes) (responseObj : T)
    (queryParam : StringMap) (headers : StringMap) : Outcome T :=
  let endpoint := r.apiRootURL ++ resource
  match NewRequest lib (ascii "GET") endpoint none with
  | Except.error err => { trace := [], target := responseObj, err := err }
  | Except.ok req =>
      let q := queryParam.entries.foldl (fun q kv => Values.Add q kv.1 kv.2) req.URL.Query
      let req1 : Request := { req with URL := { req.URL with RawQuery := Values.Encode q } }
      let req2 := if headers ≠ none then SetHeaders req1 headers else req1
      ProcessResponse lib r req2 responseObj

/-- `func (r *RestClient) Post(resource, bodyParam, responseObj, headers) error`. -/
def Post {B T : Type} (lib : Lib B T) (r : RestClient) (resource : Bytes) (bodyParam : B)
    (responseObj : T) (headers : StringMap) : Outcome T :=
  let endpoint := r.apiRootURL ++ resource
  match lib.jsonMarshal bodyParam with
  | Except.error err => { trace := [], target := responseObj, err := err }
  | Except.ok inputData =>
      match NewRequest lib (ascii "POST") endpoint (some inputData) with
      | Except.error err => { trace := [], target := responseObj, err := err }
      | Except.ok req =>
          let req1 := if headers ≠ none then SetHeaders req headers else req
          ProcessResponse lib r req1 responseObj

/-! ## Vocabulary of the statements -/

/-- The requests handed to `r.client.Do` during a call, in order. -/
def requests (tr : List Event) : List Request :=
  tr.filterMap (fun e => match e with
    | Event.Do req => some req
    | _ => none)

/-- The call with outcome `out` obtained the response `resp`: it handed some request to
`r.client.Do`, which answered with `resp`. -/
def Obtained {T : Type} (r : RestClient) (out : Outcome T) (resp : Response) : Prop :=
  ∃ req, Event.Do req ∈ out.trace ∧ r.client req = Except.ok resp

/-- The outcome `out` is that of a call of `ProcessResponse`, `Get` or `Post` on the client
`r` with response target `t`. -/
def IsCall {B T : Type} (lib : Lib B T) (r : RestClient) (t : T) (out : Outcome T) : Prop :=
  (∃ req, out = ProcessResponse lib r req t) ∨
  (∃ resource queryParam headers, out = Get lib r resource t queryParam headers) ∨
  (∃ resource bodyParam headers, out = Post lib r resource bodyParam t headers)

/-- The text `k=v` of one query parameter, both sides escaped by `url.QueryEscape`. -/
def querySegment (k v : Bytes) : Bytes := QueryEscape k ++ [61] ++ QueryEscape v

/-- The parameters `Values.Encode` writes, in order: for every key in sorted order, one
`k=v` per value. -/
def encodeSegments (m : MultiMap) : List Bytes :=
  (List.insertionSort (fun a b => bytesLE a b = true) (m.map Prod.fst)).flatMap
    (fun k => (m.get k).map (querySegment k))

/-- The buffer of `Values.Encode` after one more parameter `s` was written. -/
def appendSegment (buf s : Bytes) : Bytes :=
  (if buf.length > 0 then buf ++ [38] else buf) ++ s

/-- The query values `Get` encodes: those of the URL followed by the entries of
`queryParam`, added in the order of the traversal. -/
def getValues (u : URL) (queryParam : StringMap) : MultiMap :=
  queryParam.entries.foldl (fun q kv => Values.Add q kv.1 kv.2) u.Query

/-- The header `SetHeaders` leaves on a request whose header was `h`. -/
def setAll (h : MultiMap) (headers : StringMap) : MultiMap :=
  headers.entries.foldl (fun h kv => Header.Set h kv.1 kv.2) h

/-! ## Concrete instances used to evaluate the model -/

/-- A library instance for evaluation: every URL parses to a fixed host with the text after
the first `?` as raw query, a body is its own JSON encoding, and decoding stores the text
unless it starts with `!`. -/
def demoLib : Lib Bytes Bytes where
  urlParse := fun s =>
    if s = [] then Except.error (GoError.foreign 1 (ascii "empty url"))
    else Except.ok { Scheme := ascii "http", Host := ascii "h", Path := (cut 63 s).1,
                     RawQuery := (cut 63 s).2.1, Fragment := [] }
  jsonMarshal := fun b =>
    if b = [] then Except.error (GoError.foreign 2 (ascii "unsupported value"))
    else Except.ok b
  jsonUnmarshal := fun b t =>
    if b.head? = some 33 then (t, GoError.foreign 3 (ascii "invalid character"))
    else (b, GoError.nil)

/-- A client whose transport answers every request with `resp`. -/
def constClient (resp : Response) : RestClient :=
  { apiRootURL := ascii "http://h", client := fun _ => Except.ok resp }

/-- A client whose transport fails on every request. -/
def failClient : RestClient :=
  { apiRootURL := ascii "http://h",
    client := fun _ => Except.error (GoError.foreign 4 (ascii "connection refused")) }

/-- A response with the given status line, status code and fully read body. -/
def mkResp (status : String) (code : Int) (body : String) : Response :=
  { Status := ascii status, StatusCode := code, Body := { data := ascii body, readErr := GoError.nil } }

/-- A 429 response with a body. -/
def resp429 : Response := mkResp "429 Too Many Requests" 429 "slow down"

/-- A 500 response whose body is `internal error`. -/
def resp500 : Response := mkResp "500 Internal Server Error" 500 "internal error"

/-- A 200 response with an empty body. -/
def resp200Empty : Response := mkResp "200 OK" 200 ""

/-- A 200 response with a body the decoder accepts. -/
def resp200 : Response := mkResp "200 OK" 200 "hello"

/-- A 200 response with a body the decoder rejects. -/
def resp200Bad : Response := mkResp "200 OK" 200 "!"

/-- A 201 response with an empty body. -/
def resp201Empty : Response := mkResp "201 Created" 201 ""

/-- A 201 response with a body the decoder rejects. -/
def resp201Bad : Response := mkResp "201 Created" 201 "!"

/-- A 204 response with an empty body. -/
def resp204Empty : Response := mkResp "204 No Content" 204 ""

/-- A 201 response with a body the decoder accepts. -/
def resp201 : Response := mkResp "201 Created" 201 "hello"

/-- The URL `demoLib` parses `http://h/x` to. -/
def demoURL : URL :=
  { Scheme := ascii "http", Host := ascii "h", Path := ascii "http://h/x", RawQuery := [],
    Fragment := [] }

/-- A bare request to evaluate `ProcessResponse` on. -/
def demoReq : Request :=
  { Method := ascii "GET",
    URL := { Scheme := ascii "http", Host := ascii "h", Path := ascii "/x", RawQuery := [],
             Fragment := [] },
    Header := [], Body := none, Close := false }

end GoRestLib


namespace GoRestLib

/-! ## Basic facts -/

theorem toError_Error (re : RestLibError) : re.toError.Error = re.Error := by
  cases re with
  | mk Err Code =>
    cases Err <;> simp [RestLibError.toError, RestLibError.Error, GoError.Error]

theorem processBody_trace_noDo {B T : Type} (lib : Lib B T) (resp : Response) (t : T)
    (rq : Request) : Event.Do rq ∉ (processBody lib resp t).trace := by
  unfold processBody
  simp only
  split_ifs <;> simp

theorem ProcessResponse_of_obtained {B T : Type} (lib : Lib B T) (r : RestClient)
    (req : Request) (t : T) (resp : Response)
    (h : Obtained r (ProcessResponse lib r req t) resp) :
    r.client { req with Close := true } = Except.ok resp ∧
    ProcessResponse lib r req t =
      { trace := Event.Do { req with Close := true } :: (processBody lib resp t).trace ++
          [Event.BodyClose],
        target := (processBody lib resp t).target, err := (processBody lib resp t).err } := by
  obtain ⟨rq, hmem, hdo⟩ := h
  unfold ProcessResponse at hmem ⊢
  simp only at hmem ⊢
  cases hc : r.client { req with Close := true } with
  | error e =>
    rw [hc] at hmem
    simp only [List.mem_singleton, Event.Do.injEq] at hmem
    rw [hmem, hc] at hdo
    cases hdo
  | ok resp1 =>
    rw [hc] at hmem
    have hno := processBody_trace_noDo lib resp1 t rq
    simp only [List.cons_append, List.mem_cons, Event.Do.injEq, List.mem_append,
      List.mem_singleton, reduceCtorEq, or_false, hno, false_or, List.not_mem_nil] at hmem
    rw [hmem, hc] at hdo
    cases hdo
    exact ⟨rfl, rfl⟩

theorem ProcessResponse_cases {B T : Type} (lib : Lib B T) (r : RestClient) (req : Request)
    (t : T) :
    (∃ e, r.client { req with Close := true } = Except.error e ∧
      ProcessResponse lib r req t =
        { trace := [Event.Do { req with Close := true }], target := t, err := e }) ∨
    (∃ resp, r.client { req with Close := true } = Except.ok resp ∧
      ProcessResponse lib r req t =
        { trace := Event.Do { req with Close := true } :: (processBody lib resp t).trace ++
            [Event.BodyClose],
          target := (processBody lib resp t).target, err := (processBody lib resp t).err }) := by
  unfold ProcessResponse
  simp only
  cases hc : r.client { req with Close := true } with
  | error e => exact Or.inl ⟨e, rfl, rfl⟩
  | ok resp => exact Or.inr ⟨resp, rfl, rfl⟩

theorem Get_cases {B T : Type} (lib : Lib B T) (r : RestClient) (resource : Bytes) (t : T)
    (queryParam headers : StringMap) :
    (∃ e, lib.urlParse (r.apiRootURL ++ resource) = Except.error e ∧
      Get lib r resource t queryParam headers = { trace := [], target := t, err := e }) ∨
    (∃ req, Get lib r resource t queryParam headers = ProcessResponse lib r req t) := by
  unfold Get NewRequest
  simp only
  cases hu : lib.urlParse (r.apiRootURL ++ resource) with
  | error e => exact Or.inl ⟨e, rfl, rfl⟩
  | ok u => exact Or.inr ⟨_, rfl⟩

theorem Post_cases {B T : Type} (lib : Lib B T) (r : RestClient) (resource : Bytes)
    (bodyParam : B) (t : T) (headers : StringMap) :
    (∃ e, Post lib r resource bodyParam t headers = { trace := [], target := t, err := e }) ∨
    (∃ req, Post lib r resource bodyParam t headers = ProcessResponse lib r req t) := by
  unfold Post NewRequest
  simp only
  cases hm : lib.jsonMarshal bodyParam with
  | error e => exact Or.inl ⟨e, rfl⟩
  | ok data =>
    cases hu : lib.urlParse (r.apiRootURL ++ resource) with
    | error e => exact Or.inl ⟨e, rfl⟩
    | ok u => exact Or.inr ⟨_, rfl⟩

theorem IsCall_cases {B T : Type} (lib : Lib B T) (r : RestClient) (t : T) (out : Outcome T)
    (h : IsCall lib r t out) :
    (out.trace = [] ∧ out.target = t) ∨ (∃ req, out = ProcessResponse lib r req t) := by
  rcases h with ⟨req, rfl⟩ | ⟨resource, q, hd, rfl⟩ | ⟨resource, b, hd, rfl⟩
  · exact Or.inr ⟨req, rfl⟩
  · rcases Get_cases lib r resource t q hd with ⟨e, _, he⟩ | ⟨req, he⟩
    · rw [he]; exact Or.inl ⟨rfl, rfl⟩
    · exact Or.inr ⟨req, he⟩
  · rcases Post_cases lib r resource b t hd with ⟨e, he⟩ | ⟨req, he⟩
    · rw [he]; exact Or.inl ⟨rfl, rfl⟩
    · exact Or.inr ⟨req, he⟩

/-- A call that obtained a response ran the response handling on exactly that response. -/
theorem IsCall_of_obtained {B T : Type} (lib : Lib B T) (r : RestClient) (t : T)
    (out : Outcome T) (resp : Response) (h : IsCall lib r t out) (ho : Obtained r out resp) :
    ∃ req : Request, r.client { req with Close := true } = Except.ok resp ∧
      out = { trace := Event.Do { req with Close := true } :: (processBody lib resp t).trace ++
                [Event.BodyClose],
              target := (processBody lib resp t).target,
              err := (processBody lib resp t).err } := by
  rcases IsCall_cases lib r t out h with ⟨htr, _⟩ | ⟨req, rfl⟩
  · obtain ⟨rq, hmem, _⟩ := ho
    rw [htr] at hmem
    cases hmem
  · exact ⟨req, ProcessResponse_of_obtained lib r req t resp ho⟩

/-! ## Status classification (C1 to C5) -/

/-- C1: for every response obtained by `ProcessResponse`, `Get` or `Post` whose status code is
429 or 403 and whose body was read without error, whatever the body is, the returned error
is the `RestLibError` whose `Code` is the numeric status code of the response and whose
`Err` is `errors.New(resp.Status)`, so that its `Error()` text is the status line. -/
theorem C1_rate_limit_forbidden {B T : Type} (lib : Lib B T) (r : RestClient) (t : T)
    (out : Outcome T) (resp : Response)
    (hcall : IsCall lib r t out) (hresp : Obtained r out resp)
    (hread : resp.Body.readErr = GoError.nil)
    (hcode : resp.StatusCode = 429 ∨ resp.StatusCode = 403) :
    out.err = RestLibError.toError { Err := errorsNew resp.Status, Code := resp.StatusCode } ∧
    RestLibError.Error { Err := errorsNew resp.Status, Code := resp.StatusCode } =
      some resp.Status ∧
    out.err.Error = some resp.Status := by
  obtain ⟨req, _, rfl⟩ := IsCall_of_obtained lib r t out resp hcall hresp
  have herr : (processBody lib resp t).err =
      RestLibError.toError { Err := errorsNew resp.Status, Code := resp.StatusCode } := by
    unfold processBody
    rcases hcode with hc | hc <;>
      simp [hread, hc, StatusOK, StatusTooManyRequests, StatusForbidden]
  refine ⟨herr, ?_, ?_⟩
  · simp [RestLibError.Error, errorsNew, GoError.Error]
  · show (processBody lib resp t).err.Error = some resp.Status
    rw [herr]
    simp [RestLibError.toError, GoError.Error, errorsNew]

/-- C2: for every response obtained by `ProcessResponse` whose status code is outside 200 to
299 and is neither 429 nor 403, and whose body, read without error, is `b`, the returned
error is `errors.New(string(b))`: it is not nil, it is not a `RestLibError`, and its
message is exactly `b`. -/
theorem C2_other_status_error {B T : Type} (lib : Lib B T) (r : RestClient) (req : Request)
    (t : T) (resp : Response) (b : Bytes)
    (hresp : Obtained r (ProcessResponse lib r req t) resp)
    (hbody : resp.Body = { data := b, readErr := GoError.nil })
    (h2xx : ¬ (200 ≤ resp.StatusCode ∧ resp.StatusCode ≤ 299))
    (h429 : resp.StatusCode ≠ 429) (h403 : resp.StatusCode ≠ 403) :
    (ProcessResponse lib r req t).err = errorsNew b ∧
    (ProcessResponse lib r req t).err ≠ GoError.nil ∧
    (∀ re : RestLibError, (ProcessResponse lib r req t).err ≠ re.toError) ∧
    (ProcessResponse lib r req t).err.Error = some b := by
  obtain ⟨_, hpr⟩ := ProcessResponse_of_obtained lib r req t resp hresp
  have h200 : resp.StatusCode ≠ 200 := by
    intro h
    exact h2xx (by rw [h]; decide)
  have herr : (processBody lib resp t).err = errorsNew b := by
    unfold processBody
    simp [hbody, h200, h429, h403, StatusOK, StatusTooManyRequests, StatusForbidden]
  have he : (ProcessResponse lib r req t).err = errorsNew b := by
    rw [hpr]
    exact herr
  rw [he]
  refine ⟨rfl, ?_, ?_, ?_⟩
  · simp [errorsNew]
  · intro re
    simp [errorsNew, RestLibError.toError]
  · simp [errorsNew, GoError.Error]

/-- C3 (amended): for every response obtained by `ProcessResponse` whose status code is 200
and whose body, read without error, is empty, no error is returned, the response target is
the one passed in, and `json.Unmarshal` is not called. -/
theorem C3_ok_empty_body {B T : Type} (lib : Lib B T) (r : RestClient) (req : Request)
    (t : T) (resp : Response)
    (hresp : Obtained r (ProcessResponse lib r req t) resp)
    (hbody : resp.Body = { data := [], readErr := GoError.nil })
    (hcode : resp.StatusCode = 200) :
    (ProcessResponse lib r req t).err = GoError.nil ∧
    (ProcessResponse lib r req t).target = t ∧
    (∀ data, Event.Unmarshal data ∉ (ProcessResponse lib r req t).trace) := by
  obtain ⟨_, hpr⟩ := ProcessResponse_of_obtained lib r req t resp hresp
  have hpb : processBody lib resp t =
      { trace := [Event.ReadAll], target := t, err := GoError.nil } := by
    unfold processBody
    simp [hbody, hcode, StatusOK]
  rw [hpr, hpb]
  simp

/-- C4 (amended): for every response obtained by `ProcessResponse` whose status code is 200
and whose body `b`, read without error, is not empty and is decoded by `json.Unmarshal`
without error, no error is returned and the response target afterwards is the value
`json.Unmarshal` decoded from `b`. -/
theorem C4_ok_decoded {B T : Type} (lib : Lib B T) (r : RestClient) (req : Request)
    (t : T) (resp : Response) (b : Bytes)
    (hresp : Obtained r (ProcessResponse lib r req t) resp)
    (hbody : resp.Body = { data := b, readErr := GoError.nil })
    (hcode : resp.StatusCode = 200)
    (hne : b ≠ [])
    (hdec : (lib.jsonUnmarshal b t).2 = GoError.nil) :
    (ProcessResponse lib r req t).err = GoError.nil ∧
    (ProcessResponse lib r req t).target = (lib.jsonUnmarshal b t).1 := by
  obtain ⟨_, hpr⟩ := ProcessResponse_of_obtained lib r req t resp hresp
  have hpb : processBody lib resp t =
      { trace := [Event.ReadAll, Event.Unmarshal b], target := (lib.jsonUnmarshal b t).1,
        err := GoError.nil } := by
    unfold processBody
    simp [hbody, hcode, StatusOK, hne, hdec]
  rw [hpr, hpb]
  simp

/-- C5 (amended): for every response obtained by `ProcessResponse` whose status code is 200
and whose body `b` was read without error: when `b` is not empty and `json.Unmarshal` fails
on it, exactly the decoder error is returned, and it is not nil; and nil is returned if and
only if `b` is empty or decoding succeeds. -/
theorem C5_decode_error {B T : Type} (lib : Lib B T) (r : RestClient) (req : Request)
    (t : T) (resp : Response) (b : Bytes)
    (hresp : Obtained r (ProcessResponse lib r req t) resp)
    (hbody : resp.Body = { data := b, readErr := GoError.nil })
    (hcode : resp.StatusCode = 200) :
    (b ≠ [] → (lib.jsonUnmarshal b t).2 ≠ GoError.nil →
      (ProcessResponse lib r req t).err = (lib.jsonUnmarshal b t).2 ∧
      (ProcessResponse lib r req t).err ≠ GoError.nil) ∧
    ((ProcessResponse lib r req t).err = GoError.nil ↔
      (b = [] ∨ (lib.jsonUnmarshal b t).2 = GoError.nil)) := by
  obtain ⟨_, hpr⟩ := ProcessResponse_of_obtained lib r req t resp hresp
  have herr : (ProcessResponse lib r req t).err =
      if b = [] then GoError.nil else (lib.jsonUnmarshal b t).2 := by
    rw [hpr]
    unfold processBody
    by_cases hb : b = []
    · simp [hbody, hcode, hb, StatusOK]
    · by_cases hd : (lib.jsonUnmarshal b t).2 = GoError.nil
      · simp [hbody, hcode, hb, hd, StatusOK]
      · simp [hbody, hcode, hb, hd, StatusOK]
  rw [herr]
  constructor
  · intro hb hd
    simp [hb, hd]
  · by_cases hb : b = []
    · simp [hb]
    · simp [hb]

/-! ## Effects and the response target (C6, C9, C10) -/

theorem processBody_trace {B T : Type} (lib : Lib B T) (resp : Response) (t : T) :
    (processBody lib resp t).trace = [Event.ReadAll] ∨
    (processBody lib resp t).trace = [Event.ReadAll, Event.Unmarshal resp.Body.data] := by
  unfold processBody
  simp only
  split_ifs <;> simp

/-- Off the decode path `processBody` neither calls `json.Unmarshal` nor touches the
target. -/
theorem processBody_frame {B T : Type} (lib : Lib B T) (resp : Response) (t : T)
    (h : resp.Body.readErr ≠ GoError.nil ∨ resp.StatusCode ≠ StatusOK) :
    (processBody lib resp t).trace = [Event.ReadAll] ∧ (processBody lib resp t).target = t := by
  unfold processBody
  simp only
  rcases h with h | h
  · simp [h]
  · split_ifs <;> simp_all

/-- C6: for every `Post` call, if `json.Marshal(bodyParam)` fails, `Post` returns that error
and hands no request to the transport (no effect at all is performed); otherwise, when the
request is constructed (`url.Parse` accepts `apiRootURL + resource`), exactly one request is
handed to the transport, its method is `POST`, its URL is the parsed `apiRootURL + resource`
and its body is the JSON encoding of `bodyParam`. -/
theorem C6_post_serialization {B T : Type} (lib : Lib B T) (r : RestClient)
    (resource : Bytes) (bodyParam : B) (t : T) (headers : StringMap) :
    (∀ e, lib.jsonMarshal bodyParam = Except.error e →
      (Post lib r resource bodyParam t headers).err = e ∧
      (Post lib r resource bodyParam t headers).trace = []) ∧
    (∀ data u, lib.jsonMarshal bodyParam = Except.ok data →
      lib.urlParse (r.apiRootURL ++ resource) = Except.ok u →
      ∃ req : Request, requests (Post lib r resource bodyParam t headers).trace = [req] ∧
        req.Method = ascii "POST" ∧ req.URL = u ∧ req.Body = some data) := by
  constructor
  · intro e he
    unfold Post
    simp [he]
  · intro data u hd hu
    have hset : ∀ (es : List (Bytes × Bytes)) (rq : Request),
        (es.foldl (fun rq kv => { rq with Header := Header.Set rq.Header kv.1 kv.2 }) rq).Method
            = rq.Method ∧
        (es.foldl (fun rq kv => { rq with Header := Header.Set rq.Header kv.1 kv.2 }) rq).URL
            = rq.URL ∧
        (es.foldl (fun rq kv => { rq with Header := Header.Set rq.Header kv.1 kv.2 }) rq).Body
            = rq.Body := by
      intro es
      induction es with
      | nil => intro rq; exact ⟨rfl, rfl, rfl⟩
      | cons kv es ih =>
        intro rq
        simp only [List.foldl_cons]
        exact ih _
    have hpost : ∃ req : Request, req.Method = ascii "POST" ∧ req.URL = u ∧
        req.Body = some data ∧
        Post lib r resource bodyParam t headers = ProcessResponse lib r req t := by
      unfold Post NewRequest
      simp only [hd, hu]
      by_cases hh : headers = none
      · refine ⟨_, ?_, ?_, ?_, rfl⟩ <;> simp [hh]
      · refine ⟨_, ?_, ?_, ?_, rfl⟩ <;> simp only [ne_eq, hh, not_false_eq_true, if_true]
        · exact (hset _ _).1
        · exact (hset _ _).2.1
        · exact (hset _ _).2.2
    obtain ⟨req, hm, hu2, hb, hp⟩ := hpost
    refine ⟨{ req with Close := true }, ?_, hm, hu2, hb⟩
    rw [hp]
    rcases ProcessResponse_cases lib r req t with ⟨e, _, h⟩ | ⟨resp, _, h⟩
    · rw [h]
      simp [requests]
    · rw [h]
      rcases processBody_trace lib resp t with h2 | h2 <;> rw [h2] <;> simp [requests]

/-- C9: every call of `ProcessResponse`, `Get` or `Post` hands at most one request to
`r.client.Do`, so it obtains at most one response; every request handed over has `Close` set
(connection reuse disabled); and whenever a response was obtained, the last effect of the
call is the closing of the response body, which happens exactly once, whatever path the
handling of the response took. -/
theorem C9_one_response_body_closed {B T : Type} (lib : Lib B T) (r : RestClient) (t : T)
    (out : Outcome T) (hcall : IsCall lib r t out) :
    (requests out.trace).length ≤ 1 ∧
    (∀ req ∈ requests out.trace, req.Close = true) ∧
    (∀ resp, Obtained r out resp →
      out.trace.getLast? = some Event.BodyClose ∧ out.trace.count Event.BodyClose = 1) := by
  rcases IsCall_cases lib r t out hcall with ⟨htr, _⟩ | ⟨req, rfl⟩
  · rw [htr]
    refine ⟨by simp [requests], by simp [requests], ?_⟩
    rintro resp ⟨rq, hmem, _⟩
    rw [htr] at hmem
    cases hmem
  · rcases ProcessResponse_cases lib r req t with ⟨e, hc, h⟩ | ⟨resp, hc, h⟩
    · refine ⟨by rw [h]; simp [requests], by rw [h]; simp [requests], ?_⟩
      intro resp ho
      have := (ProcessResponse_of_obtained lib r req t resp ho).1
      rw [hc] at this
      cases this
    · rw [h]
      rcases processBody_trace lib resp t with h2 | h2 <;> rw [h2] <;>
        refine ⟨by simp [requests], by simp [requests], ?_⟩ <;>
        intro _ _ <;> simp

/-- C10: the response target is written on the decode path only. For every call of
`ProcessResponse`, `Get` or `Post` that obtained no response (request construction,
serialization or transport failed), or that obtained a response whose body could not be
read or whose status is not `http.StatusOK` (429, 403 and every other status), the response
target after the call is the one passed in and `json.Unmarshal` was not called, whatever the
body of the response is. -/
theorem C10_target_frame {B T : Type} (lib : Lib B T) (r : RestClient) (t : T)
    (out : Outcome T) (hcall : IsCall lib r t out)
    (hpath : (∀ resp, ¬ Obtained r out resp) ∨
      (∃ resp, Obtained r out resp ∧
        (resp.Body.readErr ≠ GoError.nil ∨ resp.StatusCode ≠ StatusOK))) :
    out.target = t ∧ ∀ data, Event.Unmarshal data ∉ out.trace := by
  rcases hpath with hno | ⟨resp, ho, hbad⟩
  · rcases IsCall_cases lib r t out hcall with ⟨htr, htg⟩ | ⟨req, rfl⟩
    · exact ⟨htg, by rw [htr]; simp⟩
    · rcases ProcessResponse_cases lib r req t with ⟨e, hc, h⟩ | ⟨resp, hc, h⟩
      · rw [h]; simp
      · exfalso
        refine hno resp ⟨{ req with Close := true }, ?_, hc⟩
        rw [h]
        simp
  · obtain ⟨req, _, rfl⟩ := IsCall_of_obtained lib r t out resp hcall ho
    obtain ⟨h1, h2⟩ := processBody_frame lib resp t hbad
    simp [h1, h2]

/-! ## The request that is sent -/

theorem requests_ProcessResponse {B T : Type} (lib : Lib B T) (r : RestClient) (req : Request)
    (t : T) : requests (ProcessResponse lib r req t).trace = [{ req with Close := true }] := by
  rcases ProcessResponse_cases lib r req t with ⟨e, _, h⟩ | ⟨resp, _, h⟩
  · rw [h]
    simp [requests]
  · rw [h]
    rcases processBody_trace lib resp t with h2 | h2 <;> rw [h2] <;> simp [requests]

theorem SetHeaders_eq (req : Request) (headers : StringMap) :
    SetHeaders req headers = { req with Header := setAll req.Header headers } := by
  unfold SetHeaders setAll
  generalize headers.entries = es
  induction es generalizing req with
  | nil => rfl
  | cons kv es ih =>
    simp only [List.foldl_cons]
    rw [ih]

theorem SetHeaders_guard (req : Request) (headers : StringMap) :
    (if headers ≠ none then SetHeaders req headers else req) = SetHeaders req headers := by
  cases headers with
  | none => simp [SetHeaders, StringMap.entries]
  | some es => simp

theorem Get_requests {B T : Type} (lib : Lib B T) (r : RestClient) (resource : Bytes) (t : T)
    (queryParam headers : StringMap) (u : URL)
    (hu : lib.urlParse (r.apiRootURL ++ resource) = Except.ok u) :
    requests (Get lib r resource t queryParam headers).trace =
      [{ Method := ascii "GET",
         URL := { u with RawQuery := Values.Encode (getValues u queryParam) },
         Header := setAll [] headers, Body := none, Close := true }] := by
  unfold Get NewRequest
  simp only [hu]
  rw [SetHeaders_guard, requests_ProcessResponse, SetHeaders_eq]
  rfl

theorem Post_requests {B T : Type} (lib : Lib B T) (r : RestClient) (resource : Bytes)
    (bodyParam : B) (t : T) (headers : StringMap) (data : Bytes) (u : URL)
    (hd : lib.jsonMarshal bodyParam = Except.ok data)
    (hu : lib.urlParse (r.apiRootURL ++ resource) = Except.ok u) :
    requests (Post lib r resource bodyParam t headers).trace =
      [{ Method := ascii "POST", URL := u, Header := setAll [] headers, Body := some data,
         Close := true }] := by
  unfold Post NewRequest
  simp only [hd, hu]
  rw [SetHeaders_guard, requests_ProcessResponse, SetHeaders_eq]

/-! ## Multimaps -/

theorem MultiMap.get_set (m : MultiMap) (k k2 : Bytes) (vs : List Bytes) :
    (m.set k vs).get k2 = if k = k2 then vs else m.get k2 := by
  induction m with
  | nil => simp [MultiMap.set, MultiMap.get]
  | cons e m ih =>
    obtain ⟨a, old⟩ := e
    by_cases hak : a = k
    · subst hak
      by_cases h2 : a = k2 <;> simp [MultiMap.set, MultiMap.get, h2]
    · by_cases h2 : a = k2
      · subst h2
        simp [MultiMap.set, MultiMap.get, hak, Ne.symm hak]
      · simp only [MultiMap.set, hak, if_false, MultiMap.get, h2]
        exact ih

theorem MultiMap.mem_keys_of_get (m : MultiMap) (k : Bytes) (v : Bytes) (h : v ∈ m.get k) :
    k ∈ m.map Prod.fst := by
  induction m with
  | nil => simp [MultiMap.get] at h
  | cons e m ih =>
    obtain ⟨a, vs⟩ := e
    by_cases hak : a = k
    · simp [hak]
    · simp only [MultiMap.get, hak, if_false] at h
      simp [ih h]

/-! ## The fuel of `ParseQuery` -/

theorem cut_rest_length_le (sep : UInt8) (s : Bytes) : (cut sep s).2.1.length ≤ s.length := by
  induction s with
  | nil => simp [cut]
  | cons c rest ih =>
    unfold cut
    by_cases h : c = sep
    · simp [h]
    · simp only [h, if_false, List.length_cons]
      omega

theorem cut_rest_length_lt (sep : UInt8) (s : Bytes) (hs : s ≠ []) :
    (cut sep s).2.1.length < s.length := by
  cases s with
  | nil => exact absurd rfl hs
  | cons c rest =>
    unfold cut
    by_cases h : c = sep
    · simp [h]
    · have := cut_rest_length_le sep rest
      simp only [h, if_false, List.length_cons]
      omega

/-- Any two amounts of fuel that cover the length of the query give the same result. -/
theorem parseQueryLoop_fuel_irrelevant (n : Nat) :
    ∀ (f1 f2 : Nat) (m : MultiMap) (query : Bytes), query.length ≤ n → n ≤ f1 → n ≤ f2 →
      parseQueryLoop f1 m query = parseQueryLoop f2 m query := by
  induction n with
  | zero =>
    intro f1 f2 m query hq _ _
    have hnil : query = [] := List.length_eq_zero.mp (Nat.le_zero.mp hq)
    subst hnil
    cases f1 <;> cases f2 <;> simp [parseQueryLoop]
  | succ n ih =>
    intro f1 f2 m query hq h1 h2
    obtain ⟨g1, rfl⟩ : ∃ g, f1 = g + 1 := ⟨f1 - 1, by omega⟩
    obtain ⟨g2, rfl⟩ : ∃ g, f2 = g + 1 := ⟨f2 - 1, by omega⟩
    by_cases hnil : query = []
    · simp [parseQueryLoop, hnil]
    · have hlt := cut_rest_length_lt 38 query hnil
      have hrec : ∀ m2 : MultiMap, parseQueryLoop g1 m2 (cut 38 query).2.1 =
          parseQueryLoop g2 m2 (cut 38 query).2.1 :=
        fun m2 => ih g1 g2 m2 _ (by omega) (by omega) (by omega)
      simp only [parseQueryLoop, hnil, if_false]
      split_ifs
      · exact hrec m
      · exact hrec m
      · cases QueryUnescape (cut 61 (cut 38 query).1).1 with
        | none => exact hrec m
        | some key1 =>
          cases QueryUnescape (cut 61 (cut 38 query).1).2.1 with
          | none => exact hrec m
          | some value1 => exact hrec _

/-- The fuel `ParseQuery` runs with is enough: more fuel does not change what it returns. -/
theorem ParseQuery_fuel (query : Bytes) (fuel : Nat) (h : query.length ≤ fuel) :
    parseQueryLoop fuel [] query = ParseQuery query :=
  parseQueryLoop_fuel_irrelevant query.length fuel query.length [] query (Nat.le_refl _) h
    (Nat.le_refl _)

/-! ## Headers -/

theorem foldl_Set_other (es : List (Bytes × Bytes)) (h : MultiMap) (key : Bytes)
    (hne : ∀ kv ∈ es, CanonicalMIMEHeaderKey kv.1 ≠ key) :
    (es.foldl (fun h kv => Header.Set h kv.1 kv.2) h).get key = h.get key := by
  induction es generalizing h with
  | nil => rfl
  | cons e es ih =>
    simp only [List.foldl_cons]
    rw [ih _ (fun kv hkv => hne kv (List.mem_cons_of_mem _ hkv))]
    unfold Header.Set
    rw [MultiMap.get_set, if_neg (hne e (List.mem_cons_self _ _))]

theorem foldl_Set_get (es : List (Bytes × Bytes)) (h : MultiMap) (name value : Bytes)
    (hmem : (name, value) ∈ es)
    (huniq : ∀ kv ∈ es, CanonicalMIMEHeaderKey kv.1 = CanonicalMIMEHeaderKey name →
      kv = (name, value)) :
    (es.foldl (fun h kv => Header.Set h kv.1 kv.2) h).get (CanonicalMIMEHeaderKey name) =
      [value] := by
  induction es generalizing h with
  | nil => cases hmem
  | cons e es ih =>
    simp only [List.foldl_cons]
    by_cases hin : (name, value) ∈ es
    · exact ih _ hin (fun kv hkv => huniq kv (List.mem_cons_of_mem _ hkv))
    · have he : e = (name, value) := by
        rcases List.mem_cons.mp hmem with h1 | h1
        · exact h1.symm
        · exact absurd h1 hin
      rw [foldl_Set_other]
      · subst he
        unfold Header.Set
        rw [MultiMap.get_set, if_pos rfl]
      · intro kv hkv hc
        have := huniq kv (List.mem_cons_of_mem _ hkv) hc
        rw [this] at hkv
        exact hin hkv

/-! ## Query encoding -/

theorem MultiMap.get_Add (m : MultiMap) (k v k2 : Bytes) :
    (Values.Add m k v).get k2 = if k = k2 then m.get k ++ [v] else m.get k2 := by
  unfold Values.Add
  rw [MultiMap.get_set]

theorem foldl_Add_keeps (es : List (Bytes × Bytes)) (m : MultiMap) (k v : Bytes)
    (h : v ∈ m.get k) :
    v ∈ (es.foldl (fun q kv => Values.Add q kv.1 kv.2) m).get k := by
  induction es generalizing m with
  | nil => exact h
  | cons e es ih =>
    simp only [List.foldl_cons]
    apply ih
    rw [MultiMap.get_Add]
    by_cases hk : e.1 = k
    · rw [if_pos hk, hk]
      exact List.mem_append_left _ h
    · rw [if_neg hk]
      exact h

theorem foldl_Add_adds (es : List (Bytes × Bytes)) (m : MultiMap) (kv : Bytes × Bytes)
    (h : kv ∈ es) :
    kv.2 ∈ (es.foldl (fun q kv => Values.Add q kv.1 kv.2) m).get kv.1 := by
  induction es generalizing m with
  | nil => cases h
  | cons e es ih =>
    simp only [List.foldl_cons]
    rcases List.mem_cons.mp h with h1 | h1
    · subst h1
      apply foldl_Add_keeps
      rw [MultiMap.get_Add, if_pos rfl]
      simp
    · exact ih _ h1

theorem upperhex_ne_amp (n : UInt8) : upperhex n ≠ 38 := by
  unfold upperhex
  have hall : ∀ x ∈ ascii "0123456789ABCDEF", x ≠ 38 := by decide
  rw [List.getD_eq_getElem?_getD]
  cases hg : (ascii "0123456789ABCDEF")[n.toNat]? with
  | none => simp
  | some x =>
    simp only [Option.getD_some]
    exact hall x (List.getElem?_mem hg)

theorem amp_not_mem_QueryEscape (s : Bytes) : (38 : UInt8) ∉ QueryEscape s := by
  unfold QueryEscape
  intro h
  rw [List.mem_flatMap] at h
  obtain ⟨c, _, hc⟩ := h
  by_cases h32 : c = 32
  · simp [h32] at hc
  · by_cases hs : shouldEscape c = true
    · simp only [h32, if_false, hs, if_true, List.mem_cons, List.mem_singleton,
        List.not_mem_nil, or_false] at hc
      rcases hc with h1 | h1 | h1
      · exact absurd h1 (by decide)
      · exact upperhex_ne_amp _ h1.symm
      · exact upperhex_ne_amp _ h1.symm
    · have hs2 : shouldEscape c = false := by simpa using hs
      simp only [h32, if_false, hs2, Bool.false_eq_true, List.mem_singleton] at hc
      subst hc
      exact absurd hs2 (by decide)

theorem amp_not_mem_querySegment (k v : Bytes) : (38 : UInt8) ∉ querySegment k v := by
  unfold querySegment
  simp only [List.mem_append, List.mem_singleton, not_or]
  exact ⟨⟨amp_not_mem_QueryEscape k, by decide⟩, amp_not_mem_QueryEscape v⟩

theorem querySegment_ne_nil (k v : Bytes) : querySegment k v ≠ [] := by
  unfold querySegment
  simp

theorem encodeWrite_eq (ke buf v : Bytes) :
    encodeWrite ke buf v = appendSegment buf (ke ++ [61] ++ QueryEscape v) := by
  unfold encodeWrite appendSegment
  simp [List.append_assoc]

theorem foldl_appendSegment_ne (segs : List Bytes) (buf : Bytes) (hb : buf ≠ []) :
    segs.foldl appendSegment buf = buf ++ segs.flatMap (fun s => 38 :: s) := by
  induction segs generalizing buf with
  | nil => simp
  | cons s segs ih =>
    have hpos : buf.length > 0 := List.length_pos.mpr hb
    have hstep : appendSegment buf s = buf ++ 38 :: s := by
      unfold appendSegment
      simp [hpos]
    simp only [List.foldl_cons, List.flatMap_cons]
    rw [hstep, ih _ (by simp)]
    simp [List.append_assoc]

theorem intercalate_amp_cons (s : Bytes) (segs : List Bytes) :
    [(38 : UInt8)].intercalate (s :: segs) = s ++ segs.flatMap (fun x => 38 :: x) := by
  induction segs generalizing s with
  | nil => simp [List.intercalate]
  | cons x segs ih =>
    have := ih x
    simp only [List.intercalate, List.intersperse, List.flatten_cons, List.flatMap_cons] at this ⊢
    rw [this]
    simp

theorem foldl_appendSegment_nil (segs : List Bytes) (hne : ∀ s ∈ segs, s ≠ []) :
    segs.foldl appendSegment [] = [(38 : UInt8)].intercalate segs := by
  cases segs with
  | nil => simp [List.intercalate]
  | cons s segs =>
    have hstep : appendSegment [] s = s := by simp [appendSegment]
    simp only [List.foldl_cons]
    rw [hstep, foldl_appendSegment_ne _ _ (hne s (List.mem_cons_self _ _)),
      intercalate_amp_cons]

theorem foldl_keys_eq (m : MultiMap) (keys : List Bytes) (buf : Bytes) :
    keys.foldl (fun buf k => (m.get k).foldl (encodeWrite (QueryEscape k)) buf) buf =
      (keys.flatMap (fun k => (m.get k).map (querySegment k))).foldl appendSegment buf := by
  induction keys generalizing buf with
  | nil => rfl
  | cons k keys ih =>
    simp only [List.foldl_cons, List.flatMap_cons, List.foldl_append]
    rw [ih, List.foldl_map]
    congr 1
    congr 1
    funext b v
    rw [encodeWrite_eq]
    rfl

/-- What `Values.Encode` returns: its parameters joined by `&`. -/
theorem Encode_eq_intercalate (m : MultiMap) :
    Values.Encode m = [(38 : UInt8)].intercalate (encodeSegments m) := by
  unfold Values.Encode encodeSegments
  by_cases h0 : m.length = 0
  · have : m = [] := List.length_eq_zero.mp h0
    subst this
    simp [List.intercalate, MultiMap.get]
  · simp only [h0, if_false]
    rw [foldl_keys_eq, foldl_appendSegment_nil]
    intro s hs
    rw [List.mem_flatMap] at hs
    obtain ⟨k, _, hk⟩ := hs
    rw [List.mem_map] at hk
    obtain ⟨v, _, rfl⟩ := hk
    exact querySegment_ne_nil k v

theorem mem_encodeSegments (m : MultiMap) (k v : Bytes) (h : v ∈ m.get k) :
    querySegment k v ∈ encodeSegments m := by
  unfold encodeSegments
  rw [List.mem_flatMap]
  refine ⟨k, ?_, List.mem_map_of_mem _ h⟩
  rw [List.mem_insertionSort]
  exact MultiMap.mem_keys_of_get m k v h

/-- A value stored under a key is one of the `&`-separated parameters of the encoding. -/
theorem mem_splitOn_Encode (m : MultiMap) (k v : Bytes) (h : v ∈ m.get k) :
    querySegment k v ∈ List.splitOn 38 (Values.Encode m) := by
  have hmem := mem_encodeSegments m k v h
  rw [Encode_eq_intercalate, List.splitOn_intercalate]
  · exact hmem
  · intro l hl
    unfold encodeSegments at hl
    rw [List.mem_flatMap] at hl
    obtain ⟨k2, _, hk⟩ := hl
    rw [List.mem_map] at hk
    obtain ⟨v2, _, rfl⟩ := hk
    exact amp_not_mem_querySegment k2 v2
  · exact List.ne_nil_of_mem hmem

/-! ## Evaluations of the status classification -/

/-- C1 at a 429 response obtained by `Get`. -/
theorem C1_rate_limit_forbidden_witness :
    (Get demoLib (constClient resp429) (ascii "/x") [] none none).err =
      GoError.RestLibError (GoError.errorString (ascii "429 Too Many Requests")) 429 ∧
    RestLibError.Error { Err := errorsNew resp429.Status, Code := resp429.StatusCode } =
      some (ascii "429 Too Many Requests") ∧
    (Get demoLib (constClient resp429) (ascii "/x") [] none none).err.Error =
      some (ascii "429 Too Many Requests") :=
  C1_rate_limit_forbidden demoLib (constClient resp429) [] _ resp429
    (Or.inr (Or.inl ⟨ascii "/x", none, none, rfl⟩))
    ⟨_, List.Mem.head _, rfl⟩ rfl (Or.inl rfl)

/-- C2 at a 500 response with body `internal error`. -/
theorem C2_other_status_error_witness :
    (ProcessResponse demoLib (constClient resp500) demoReq []).err =
      GoError.errorString (ascii "internal error") ∧
    (ProcessResponse demoLib (constClient resp500) demoReq []).err ≠ GoError.nil ∧
    (∀ re : RestLibError,
      (ProcessResponse demoLib (constClient resp500) demoReq []).err ≠ re.toError) ∧
    (ProcessResponse demoLib (constClient resp500) demoReq []).err.Error =
      some (ascii "internal error") :=
  C2_other_status_error demoLib (constClient resp500) demoReq [] resp500
    (ascii "internal error") ⟨_, List.Mem.head _, rfl⟩ rfl (by decide) (by decide) (by decide)

/-- C3, as stated, fails: a 201 response with an empty body is in the 2xx range, yet
`ProcessResponse` returns the non-nil error `errors.New("")`. -/
theorem C3_counterexample :
    (200 ≤ resp201Empty.StatusCode ∧ resp201Empty.StatusCode ≤ 299) ∧
    resp201Empty.Body = { data := [], readErr := GoError.nil } ∧
    requests (ProcessResponse demoLib (constClient resp201Empty) demoReq (ascii "old")).trace =
      [{ demoReq with Close := true }] ∧
    (constClient resp201Empty).client { demoReq with Close := true } = Except.ok resp201Empty ∧
    (ProcessResponse demoLib (constClient resp201Empty) demoReq (ascii "old")).err =
      GoError.errorString [] ∧
    (ProcessResponse demoLib (constClient resp201Empty) demoReq (ascii "old")).err ≠
      GoError.nil :=
  ⟨by decide, by decide, by decide, rfl, by decide, by decide⟩

/-- C3 (amended) at a 200 response with an empty body. -/
theorem C3_ok_empty_body_witness :
    (ProcessResponse demoLib (constClient resp200Empty) demoReq (ascii "old")).err =
      GoError.nil ∧
    (ProcessResponse demoLib (constClient resp200Empty) demoReq (ascii "old")).target =
      ascii "old" ∧
    (∀ data, Event.Unmarshal data ∉
      (ProcessResponse demoLib (constClient resp200Empty) demoReq (ascii "old")).trace) :=
  C3_ok_empty_body demoLib (constClient resp200Empty) demoReq (ascii "old") resp200Empty
    ⟨_, List.Mem.head _, rfl⟩ rfl rfl

/-- C4, as stated, fails: a 201 response whose body the decoder accepts is in the 2xx range,
yet `ProcessResponse` returns the non-nil error `errors.New(body)` and the response target
is not the decoded value but the one passed in. -/
theorem C4_counterexample :
    (200 ≤ resp201.StatusCode ∧ resp201.StatusCode ≤ 299) ∧
    resp201.Body = { data := ascii "hello", readErr := GoError.nil } ∧
    demoLib.jsonUnmarshal (ascii "hello") (ascii "old") = (ascii "hello", GoError.nil) ∧
    requests (ProcessResponse demoLib (constClient resp201) demoReq (ascii "old")).trace =
      [{ demoReq with Close := true }] ∧
    (constClient resp201).client { demoReq with Close := true } = Except.ok resp201 ∧
    (ProcessResponse demoLib (constClient resp201) demoReq (ascii "old")).err =
      GoError.errorString (ascii "hello") ∧
    (ProcessResponse demoLib (constClient resp201) demoReq (ascii "old")).target =
      ascii "old" ∧
    (ProcessResponse demoLib (constClient resp201) demoReq (ascii "old")).target ≠
      (demoLib.jsonUnmarshal (ascii "hello") (ascii "old")).1 :=
  ⟨by decide, by decide, by decide, by decide, rfl, by decide, by decide, by decide⟩

/-- C4 (amended) at a 200 response with a body the decoder accepts. -/
theorem C4_ok_decoded_witness :
    (ProcessResponse demoLib (constClient resp200) demoReq (ascii "old")).err = GoError.nil ∧
    (ProcessResponse demoLib (constClient resp200) demoReq (ascii "old")).target =
      (demoLib.jsonUnmarshal (ascii "hello") (ascii "old")).1 :=
  C4_ok_decoded demoLib (constClient resp200) demoReq (ascii "old") resp200 (ascii "hello")
    ⟨_, List.Mem.head _, rfl⟩ rfl rfl (by decide) (by decide)

/-- C5, as stated, fails: a 201 response is a success status, yet with a body the decoder
rejects `ProcessResponse` returns `errors.New(body)` and not the decoder error
(`json.Unmarshal` is not called); and a 204 response with an empty body yields a non-nil error although its
body is empty. -/
theorem C5_counterexample :
    (200 ≤ resp201Bad.StatusCode ∧ resp201Bad.StatusCode ≤ 299) ∧
    resp201Bad.Body = { data := ascii "!", readErr := GoError.nil } ∧
    (demoLib.jsonUnmarshal (ascii "!") (ascii "old")).2 =
      GoError.foreign 3 (ascii "invalid character") ∧
    requests (ProcessResponse demoLib (constClient resp201Bad) demoReq (ascii "old")).trace =
      [{ demoReq with Close := true }] ∧
    (constClient resp201Bad).client { demoReq with Close := true } = Except.ok resp201Bad ∧
    (ProcessResponse demoLib (constClient resp201Bad) demoReq (ascii "old")).err =
      GoError.errorString (ascii "!") ∧
    (ProcessResponse demoLib (constClient resp201Bad) demoReq (ascii "old")).err ≠
      (demoLib.jsonUnmarshal (ascii "!") (ascii "old")).2 ∧
    (ProcessResponse demoLib (constClient resp201Bad) demoReq (ascii "old")).trace =
      [Event.Do { demoReq with Close := true }, Event.ReadAll, Event.BodyClose] ∧
    (200 ≤ resp204Empty.StatusCode ∧ resp204Empty.StatusCode ≤ 299) ∧
    resp204Empty.Body = { data := [], readErr := GoError.nil } ∧
    (constClient resp204Empty).client { demoReq with Close := true } = Except.ok resp204Empty ∧
    (ProcessResponse demoLib (constClient resp204Empty) demoReq (ascii "old")).err =
      GoError.errorString [] ∧
    (ProcessResponse demoLib (constClient resp204Empty) demoReq (ascii "old")).err ≠
      GoError.nil :=
  ⟨by decide, by decide, by decide, by decide, rfl, by decide, by decide,
    by decide, by decide, by decide, rfl, by decide, by decide⟩

/-- C5 (amended) at a 200 response with a body the decoder rejects. -/
theorem C5_decode_error_witness :
    (ProcessResponse demoLib (constClient resp200Bad) demoReq (ascii "old")).err =
      GoError.foreign 3 (ascii "invalid character") ∧
    (ProcessResponse demoLib (constClient resp200Bad) demoReq (ascii "old")).err ≠
      GoError.nil :=
  (C5_decode_error demoLib (constClient resp200Bad) demoReq (ascii "old") resp200Bad
    (ascii "!") ⟨_, List.Mem.head _, rfl⟩ rfl rfl).1 (by decide) (by decide)

/-! ## `ParseQuery` on the items of the raw query -/

theorem cut_spec (sep : UInt8) (s : Bytes) :
    (∀ x ∈ (cut sep s).1, x ≠ sep) ∧
    ((cut sep s).2.2 = true → s = (cut sep s).1 ++ sep :: (cut sep s).2.1) ∧
    ((cut sep s).2.2 = false → s = (cut sep s).1) := by
  induction s with
  | nil => simp [cut]
  | cons c rest ih =>
    obtain ⟨h1, h2, h3⟩ := ih
    unfold cut
    by_cases h : c = sep
    · simp [h]
    · simp only [h, if_false, List.mem_cons, List.cons_append, List.cons.injEq, true_and]
      refine ⟨?_, h2, h3⟩
      rintro x (hx | hx)
      · rw [hx]; exact h
      · exact h1 x hx

/-- The items `strings.Cut` peels off one by one are those of `splitOn`. -/
theorem splitOn_cut (sep : UInt8) (s : Bytes) :
    List.splitOn sep s =
      (cut sep s).1 :: (if (cut sep s).2.2 = true then List.splitOn sep (cut sep s).2.1
        else []) := by
  obtain ⟨h1, h2, h3⟩ := cut_spec sep s
  have hp : ∀ x ∈ (cut sep s).1, ¬ ((x == sep) = true) := by
    intro x hx
    simpa using h1 x hx
  by_cases hf : (cut sep s).2.2 = true
  · rw [if_pos hf]
    have hs := h2 hf
    calc List.splitOn sep s
        = List.splitOn sep ((cut sep s).1 ++ sep :: (cut sep s).2.1) := by rw [← hs]
      _ = (cut sep s).1 :: List.splitOn sep (cut sep s).2.1 :=
          List.splitOnP_first (fun x => x == sep) _ hp sep (by simp) _
  · rw [if_neg hf]
    have hs := h3 (by simpa using hf)
    calc List.splitOn sep s
        = List.splitOn sep (cut sep s).1 := by rw [← hs]
      _ = [(cut sep s).1] := List.splitOnP_eq_single (fun x => x == sep) _ hp

theorem parseQueryLoop_keeps (fuel : Nat) :
    ∀ (m : MultiMap) (query k v : Bytes), v ∈ m.get k →
      v ∈ (parseQueryLoop fuel m query).get k := by
  induction fuel with
  | zero => intro m query k v h; exact h
  | succ fuel ih =>
    intro m query k v h
    unfold parseQueryLoop
    by_cases hnil : query = []
    · simpa [hnil] using h
    · simp only [hnil, if_false]
      split_ifs
      · exact ih _ _ _ _ h
      · exact ih _ _ _ _ h
      · cases QueryUnescape (cut 61 (cut 38 query).1).1 with
        | none => exact ih _ _ _ _ h
        | some key1 =>
          cases QueryUnescape (cut 61 (cut 38 query).1).2.1 with
          | none => exact ih _ _ _ _ h
          | some value1 =>
            apply ih
            rw [MultiMap.get_Add]
            by_cases hk : key1 = k
            · rw [if_pos hk, hk]
              exact List.mem_append_left _ h
            · rw [if_neg hk]
              exact h

/-- Every well-formed item of the raw query ends up in the parsed values: an `&`-separated
item that is not empty, holds no `;`, and whose two sides of the first `=` unescape to `k`
and `v`. -/
theorem parseQueryLoop_mem (fuel : Nat) :
    ∀ (m : MultiMap) (query item k v : Bytes), query.length ≤ fuel →
      item ∈ List.splitOn 38 query → item ≠ [] → (59 : UInt8) ∉ item →
      QueryUnescape (cut 61 item).1 = some k → QueryUnescape (cut 61 item).2.1 = some v →
      v ∈ (parseQueryLoop fuel m query).get k := by
  induction fuel with
  | zero =>
    intro m query item k v hlen hitem hne _ _ _
    have hnil : query = [] := List.length_eq_zero.mp (Nat.le_zero.mp hlen)
    subst hnil
    rw [List.splitOn_nil] at hitem
    exact absurd (List.mem_singleton.mp hitem) hne
  | succ fuel ih =>
    intro m query item k v hlen hitem hne hsemi hk hv
    by_cases hnil : query = []
    · subst hnil
      rw [List.splitOn_nil] at hitem
      exact absurd (List.mem_singleton.mp hitem) hne
    · have hlt := cut_rest_length_lt 38 query hnil
      rw [splitOn_cut] at hitem
      rcases List.mem_cons.mp hitem with hhead | htail
      · unfold parseQueryLoop
        have hc : (cut 38 query).1.contains 59 = false := by
          rw [← hhead]
          simpa using hsemi
        have hne2 : (cut 38 query).1 ≠ [] := by
          rw [← hhead]
          exact hne
        rw [hhead] at hk hv
        simp only [hnil, if_false, hc, Bool.false_eq_true, hne2, hk, hv]
        apply parseQueryLoop_keeps
        rw [MultiMap.get_Add, if_pos rfl]
        simp
      · have hrest : item ∈ List.splitOn 38 (cut 38 query).2.1 := by
          by_cases hf : (cut 38 query).2.2 = true
          · rwa [if_pos hf] at htail
          · rw [if_neg hf] at htail
            cases htail
        have hrec : ∀ m2 : MultiMap, v ∈ (parseQueryLoop fuel m2 (cut 38 query).2.1).get k :=
          fun m2 => ih m2 _ item k v (by omega) hrest hne hsemi hk hv
        unfold parseQueryLoop
        simp only [hnil, if_false]
        split_ifs
        · exact hrec m
        · exact hrec m
        · cases QueryUnescape (cut 61 (cut 38 query).1).1 with
          | none => exact hrec m
          | some key1 =>
            cases QueryUnescape (cut 61 (cut 38 query).1).2.1 with
            | none => exact hrec m
            | some value1 => exact hrec _

theorem ParseQuery_mem (query item k v : Bytes)
    (hitem : item ∈ List.splitOn 38 query) (hne : item ≠ []) (hsemi : (59 : UInt8) ∉ item)
    (hk : QueryUnescape (cut 61 item).1 = some k)
    (hv : QueryUnescape (cut 61 item).2.1 = some v) :
    v ∈ (ParseQuery query).get k :=
  parseQueryLoop_mem query.length [] query item k v (Nat.le_refl _) hitem hne hsemi hk hv

/-! ## Query parameters and headers (C7, C8) -/

/-- C7, as stated, fails: parameters already present in the query string of the resource
are not always kept. With the resource `/x?a=1;b=2&c=3` and the query parameters `q: x`, the
request that is sent has the raw query `c=3&q=x`: the item `a=1;b=2` is gone. The same
happens to an item with a malformed escape, `a=%zz`. -/
theorem C7_counterexample :
    demoLib.urlParse ((constClient resp200).apiRootURL ++ ascii "/x?a=1;b=2&c=3") =
      Except.ok { demoURL with RawQuery := ascii "a=1;b=2&c=3" } ∧
    (requests (Get demoLib (constClient resp200) (ascii "/x?a=1;b=2&c=3") []
      (some [(ascii "q", ascii "x")]) none).trace).map (fun req => req.URL.RawQuery) =
        [ascii "c=3&q=x"] ∧
    List.splitOn 38 (ascii "c=3&q=x") = [ascii "c=3", ascii "q=x"] ∧
    demoLib.urlParse ((constClient resp200).apiRootURL ++ ascii "/x?a=%zz&c=3") =
      Except.ok { demoURL with RawQuery := ascii "a=%zz&c=3" } ∧
    (requests (Get demoLib (constClient resp200) (ascii "/x?a=%zz&c=3") []
      (some [(ascii "q", ascii "x")]) none).trace).map (fun req => req.URL.RawQuery) =
        [ascii "c=3&q=x"] :=
  ⟨rfl, by decide, by decide, rfl, by decide⟩

/-- C7 (amended): for every `Get` call whose request construction succeeds (`url.Parse`
yields `u` for `apiRootURL + resource`), exactly one request is sent; it is a `GET` whose URL
is `u` with a new raw query, in which every entry `(k, v)` of `queryParam` is one of the
`&`-separated parameters, written `k=v` with both sides escaped by `url.QueryEscape`; when
the URL has no query string of its own and `queryParam` is `{"q": "x"}`, the raw query is
exactly `q=x`; and every well-formed parameter already present in the raw query of `u` is
kept, re-encoded in the same way: every `&`-separated item that is not empty, holds no `;`,
and whose texts before and after its first `=` are unescaped by `url.QueryUnescape` to `k`
and `v`. -/
theorem C7_get_query_parameters {B T : Type} (lib : Lib B T) (r : RestClient)
    (resource : Bytes) (t : T) (queryParam headers : StringMap) (u : URL)
    (hu : lib.urlParse (r.apiRootURL ++ resource) = Except.ok u) :
    ∃ req : Request,
      requests (Get lib r resource t queryParam headers).trace = [req] ∧
      req.Method = ascii "GET" ∧
      req.URL = { u with RawQuery := req.URL.RawQuery } ∧
      (∀ kv ∈ queryParam.entries,
        querySegment kv.1 kv.2 ∈ List.splitOn 38 req.URL.RawQuery) ∧
      (∀ item k v, item ∈ List.splitOn 38 u.RawQuery → item ≠ [] → (59 : UInt8) ∉ item →
        QueryUnescape (cut 61 item).1 = some k → QueryUnescape (cut 61 item).2.1 = some v →
        querySegment k v ∈ List.splitOn 38 req.URL.RawQuery) ∧
      (u.RawQuery = [] → queryParam = some [(ascii "q", ascii "x")] →
        req.URL.RawQuery = ascii "q=x") := by
  refine ⟨_, Get_requests lib r resource t queryParam headers u hu, rfl, rfl, ?_, ?_, ?_⟩
  · intro kv hkv
    exact mem_splitOn_Encode _ _ _ (foldl_Add_adds _ _ kv hkv)
  · intro item k v hitem hne hsemi hk hv
    exact mem_splitOn_Encode _ _ _
      (foldl_Add_keeps _ _ k v (ParseQuery_mem u.RawQuery item k v hitem hne hsemi hk hv))
  · intro hq hp
    show Values.Encode (getValues u queryParam) = ascii "q=x"
    unfold getValues URL.Query
    rw [hq, hp]
    decide

/-- C7 (amended) at a `Get` with the query parameters `q: x`: on a URL without query string
the raw query is `q=x`, and on the resource `/x?a=1&c=%33` the parameters `a=1` and `c=3`
are kept next to `q=x`. -/
theorem C7_get_query_parameters_witness :
    (∃ req : Request,
      requests (Get demoLib (constClient resp200) (ascii "/x") []
        (some [(ascii "q", ascii "x")]) none).trace = [req] ∧
      req.URL.RawQuery = ascii "q=x" ∧
      ascii "q=x" ∈ List.splitOn 38 req.URL.RawQuery) ∧
    (∃ req : Request,
      requests (Get demoLib (constClient resp200) (ascii "/x?a=1&c=%33") []
        (some [(ascii "q", ascii "x")]) none).trace = [req] ∧
      ascii "q=x" ∈ List.splitOn 38 req.URL.RawQuery ∧
      ascii "a=1" ∈ List.splitOn 38 req.URL.RawQuery ∧
      ascii "c=3" ∈ List.splitOn 38 req.URL.RawQuery) := by
  constructor
  · obtain ⟨req, h1, _, _, h4, _, h6⟩ :=
      C7_get_query_parameters demoLib (constClient resp200) (ascii "/x") []
        (some [(ascii "q", ascii "x")]) none demoURL rfl
    exact ⟨req, h1, h6 rfl rfl, h4 (ascii "q", ascii "x") (List.Mem.head _)⟩
  · obtain ⟨req, h1, _, _, h4, h5, _⟩ :=
      C7_get_query_parameters demoLib (constClient resp200) (ascii "/x?a=1&c=%33") []
        (some [(ascii "q", ascii "x")]) none { demoURL with RawQuery := ascii "a=1&c=%33" } rfl
    exact ⟨req, h1, h4 (ascii "q", ascii "x") (List.Mem.head _),
      h5 (ascii "a=1") (ascii "a") (ascii "1") (by decide) (by decide) (by decide)
        (by decide) (by decide),
      h5 (ascii "c=%33") (ascii "c") (ascii "3") (by decide) (by decide) (by decide)
        (by decide) (by decide)⟩

/-- C8, as stated, fails: the header map with the single entry `x-token: abc` passed to
`Get` leaves nothing under the supplied name `x-token` on the request that is sent; the
value is stored under `X-Token`. And when two entries have names with the same canonical
form (`x-a` and `X-A`), the value that is kept depends on the order of the traversal. -/
theorem C8_counterexample :
    (requests (Get demoLib (constClient resp200) (ascii "/x") [] none
      (some [(ascii "x-token", ascii "abc")])).trace).map
        (fun req => req.Header.get (ascii "x-token")) = [[]] ∧
    (requests (Get demoLib (constClient resp200) (ascii "/x") [] none
      (some [(ascii "x-token", ascii "abc")])).trace).map
        (fun req => req.Header) = [[(ascii "X-Token", [ascii "abc"])]] ∧
    (SetHeaders demoReq (some [(ascii "x-token", ascii "abc")])).Header.has (ascii "x-token") =
      false ∧
    (SetHeaders demoReq (some [(ascii "x-a", ascii "1"), (ascii "X-A", ascii "2")])).Header =
      [(ascii "X-A", [ascii "2"])] ∧
    (SetHeaders demoReq (some [(ascii "X-A", ascii "2"), (ascii "x-a", ascii "1")])).Header =
      [(ascii "X-A", [ascii "1"])] := by
  decide

/-- C8 (amended): for every header map `hs` passed to `SetHeaders`, `Get` or `Post` and every
entry `(name, value)` of it, provided no other entry of `hs` has a name with the same
canonical form, the request carries the single value `value` under
`CanonicalMIMEHeaderKey(name)`, in whatever order the map is traversed; for `Get` and `Post`
this is the one request that is sent when its construction succeeds. -/
theorem C8_headers_canonical {B T : Type} (lib : Lib B T) (r : RestClient) (t : T)
    (hs : List (Bytes × Bytes)) (name value : Bytes)
    (hmem : (name, value) ∈ hs)
    (huniq : ∀ kv ∈ hs, CanonicalMIMEHeaderKey kv.1 = CanonicalMIMEHeaderKey name →
      kv = (name, value)) :
    (∀ req0 : Request,
      (SetHeaders req0 (some hs)).Header.get (CanonicalMIMEHeaderKey name) = [value]) ∧
    (∀ resource queryParam u, lib.urlParse (r.apiRootURL ++ resource) = Except.ok u →
      ∃ req : Request, requests (Get lib r resource t queryParam (some hs)).trace = [req] ∧
        req.Header.get (CanonicalMIMEHeaderKey name) = [value]) ∧
    (∀ resource bodyParam data u, lib.jsonMarshal bodyParam = Except.ok data →
      lib.urlParse (r.apiRootURL ++ resource) = Except.ok u →
      ∃ req : Request, requests (Post lib r resource bodyParam t (some hs)).trace = [req] ∧
        req.Header.get (CanonicalMIMEHeaderKey name) = [value]) := by
  refine ⟨?_, ?_, ?_⟩
  · intro req0
    rw [SetHeaders_eq]
    exact foldl_Set_get hs _ name value hmem huniq
  · intro resource queryParam u hu
    exact ⟨_, Get_requests lib r resource t queryParam (some hs) u hu,
      foldl_Set_get hs _ name value hmem huniq⟩
  · intro resource bodyParam data u hd hu
    exact ⟨_, Post_requests lib r resource bodyParam t (some hs) data u hd hu,
      foldl_Set_get hs _ name value hmem huniq⟩

/-- C8 (amended) at a `Get` with the headers `x-token: abc` and `Accept`. -/
theorem C8_headers_canonical_witness :
    ∃ req : Request,
      requests (Get demoLib (constClient resp200) (ascii "/x") [] none
        (some [(ascii "x-token", ascii "abc"), (ascii "Accept", ascii "*/*")])).trace = [req] ∧
      req.Header.get (CanonicalMIMEHeaderKey (ascii "x-token")) = [ascii "abc"] :=
  (C8_headers_canonical demoLib (constClient resp200) []
    [(ascii "x-token", ascii "abc"), (ascii "Accept", ascii "*/*")] (ascii "x-token")
    (ascii "abc") (List.Mem.head _) (by decide)).2.1 (ascii "/x") none demoURL rfl

/-! ## Evaluations of the effects -/

/-- C6 at a `Post` whose body does not serialize and at one whose body does. -/
theorem C6_post_serialization_witness :
    ((Post demoLib (constClient resp200) (ascii "/x") [] (ascii "old") none).err =
        GoError.foreign 2 (ascii "unsupported value") ∧
      (Post demoLib (constClient resp200) (ascii "/x") [] (ascii "old") none).trace = []) ∧
    (∃ req : Request,
      requests (Post demoLib (constClient resp200) (ascii "/x") (ascii "7") (ascii "old")
        none).trace = [req] ∧
      req.Method = ascii "POST" ∧ req.URL = demoURL ∧ req.Body = some (ascii "7")) :=
  ⟨(C6_post_serialization demoLib (constClient resp200) (ascii "/x") [] (ascii "old") none).1
      _ rfl,
    (C6_post_serialization demoLib (constClient resp200) (ascii "/x") (ascii "7") (ascii "old")
      none).2 _ _ rfl rfl⟩

/-- C9 at a `Post` that obtains a 500 response. -/
theorem C9_one_response_body_closed_witness :
    (requests (Post demoLib (constClient resp500) (ascii "/x") (ascii "7") (ascii "old")
      none).trace).length ≤ 1 ∧
    (∀ req ∈ requests (Post demoLib (constClient resp500) (ascii "/x") (ascii "7")
      (ascii "old") none).trace, req.Close = true) ∧
    (Post demoLib (constClient resp500) (ascii "/x") (ascii "7") (ascii "old")
      none).trace.getLast? = some Event.BodyClose ∧
    (Post demoLib (constClient resp500) (ascii "/x") (ascii "7") (ascii "old")
      none).trace.count Event.BodyClose = 1 :=
  ⟨(C9_one_response_body_closed demoLib (constClient resp500) (ascii "old") _
      (Or.inr (Or.inr ⟨ascii "/x", ascii "7", none, rfl⟩))).1,
    (C9_one_response_body_closed demoLib (constClient resp500) (ascii "old") _
      (Or.inr (Or.inr ⟨ascii "/x", ascii "7", none, rfl⟩))).2.1,
    (C9_one_response_body_closed demoLib (constClient resp500) (ascii "old") _
      (Or.inr (Or.inr ⟨ascii "/x", ascii "7", none, rfl⟩))).2.2 resp500
      ⟨_, List.Mem.head _, rfl⟩⟩

/-- C10 at a `Get` that obtains a 500 response with a decodable body and at one whose
transport fails. -/
theorem C10_target_frame_witness :
    (Get demoLib (constClient resp500) (ascii "/x") (ascii "old") none none).target =
      ascii "old" ∧
    (∀ data, Event.Unmarshal data ∉
      (Get demoLib (constClient resp500) (ascii "/x") (ascii "old") none none).trace) ∧
    (Get demoLib failClient (ascii "/x") (ascii "old") none none).target = ascii "old" :=
  ⟨(C10_target_frame demoLib (constClient resp500) (ascii "old") _
      (Or.inr (Or.inl ⟨ascii "/x", none, none, rfl⟩))
      (Or.inr ⟨resp500, ⟨_, List.Mem.head _, rfl⟩, Or.inr (by decide)⟩)).1,
    (C10_target_frame demoLib (constClient resp500) (ascii "old") _
      (Or.inr (Or.inl ⟨ascii "/x", none, none, rfl⟩))
      (Or.inr ⟨resp500, ⟨_, List.Mem.head _, rfl⟩, Or.inr (by decide)⟩)).2,
    (C10_target_frame demoLib failClient (ascii "old") _
      (Or.inr (Or.inl ⟨ascii "/x", none, none, rfl⟩))
      (Or.inl (by
        rintro resp ⟨req, _, h⟩
        cases h))).1⟩

end GoRestLib
